import Mathlib

/-!
Verification of the episode lifecycle and retention reconciliation engine of a
podcast downloader service.  The definitions below are a shallow embedding of
the Python source:

* `src/src/database.py`   — the persistent catalog (`PodcastDatabase`),
* `src/src/feed_parser.py` — RSS candidate extraction (`PodcastFeedParser`),
* `src/src/podcast_downloader.py` — episode selection and filename generation
  (`PodcastDownloader`),
* `src/main.py`           — the orchestration pass (`PodcastService`).

SQL tables are modelled as Lean lists of records, external network effects
(Google Drive deletion, per-feed processing) as outcome oracles passed in as
functions, and Python strings as Lean `String`.
-/

namespace Podcast

/-! ### Python value helpers

Python truthiness for the optional string / int values that flow through the
code (`if episode_url:`), and Python `str`/`int` conversions used by it. -/

/-- Truthiness of an optional string in Python: `None` and `""` are falsy. -/
def strTruthy : Option String → Bool
  | none => false
  | some s => decide (s ≠ "")

/-- Truthiness of an optional int in Python: `None` and `0` are falsy. -/
def intTruthy : Option Int → Bool
  | none => false
  | some v => decide (v ≠ 0)

/-- Python `a or b` on optional ints (used for the Drive-name numeric choice
`episode.get('podcast_seq') or episode.get('upload_num') or episode.get('db_id')`). -/
def pyOrInt (a b : Option Int) : Option Int :=
  if intTruthy a then a else b

/-- Byte-wise lexicographic comparison of strings, modelling the `TEXT`
ordering used by `ORDER BY downloaded_date DESC` (ISO timestamps compare
correctly this way). -/
def charsLe : List Char → List Char → Bool
  | [], _ => true
  | _ :: _, [] => false
  | a :: as, b :: bs => if a = b then charsLe as bs else decide (a.val < b.val)

def strLe (a b : String) : Bool := charsLe a.toList b.toList

/-! ### Sorting

`list.sort(key=…, reverse=True)` in Python and `ORDER BY … DESC` in SQL are
modelled by an insertion sort that orders greatest-key first; `le a b` reads
"the key of `a` is at most the key of `b`". -/

def insertDescBy (le : α → α → Bool) (x : α) : List α → List α
  | [] => [x]
  | y :: ys => if le x y then y :: insertDescBy le x ys else x :: y :: ys

def sortDescBy (le : α → α → Bool) : List α → List α
  | [] => []
  | x :: xs => insertDescBy le x (sortDescBy le xs)

/-! ### The catalog model (`src/src/database.py`)

One record per row; the `episodes` and `podcasts` tables are lists, and the
`SERIAL` primary key is modelled by `nextEpisodeId`. -/

structure EpisodeRow where
  id : Nat
  podcast_name : String
  episode_title : String
  episode_url : String
  episode_guid : Option String
  published_date : Option String
  downloaded_date : String
  file_path : Option String
  drive_file_id : Option String
  file_size : Option Int
  status : String
  in_drive : Nat
  drive_file_url : Option String
  podcast_seq : Option Int
deriving DecidableEq

structure PodcastRow where
  id : Nat
  name : String
  rss_url : String
  folder_name : String
  last_checked : Option String
  drive_folder_id : Option String
  enabled : Bool
  keep_count : Int
deriving DecidableEq

structure DB where
  episodes : List EpisodeRow
  podcasts : List PodcastRow
  nextEpisodeId : Nat
deriving DecidableEq

/-- The non-null `podcast_seq` values of a feed's episodes, in row order. -/
def seqsOf (db : DB) (name : String) : List Int :=
  db.episodes.filterMap (fun r => if r.podcast_name = name then r.podcast_seq else none)

/-- SQL `MAX(...)` over a column: `NULL` (here `none`) when no value exists. -/
def listMaxO (l : List Int) : Option Int :=
  l.foldl (fun acc v => match acc with | none => some v | some m => some (max m v)) none

/-- `SELECT MAX(podcast_seq) FROM episodes WHERE podcast_name = %s`
(`database.py` line 93). -/
def maxSeqForPodcast (db : DB) (name : String) : Option Int :=
  listMaxO (seqsOf db name)

/-- The row inserted by `PodcastDatabase.add_episode` (`database.py` lines
89-105).  When `podcast_seq` is `None` the next per-feed sequence number is
computed as `max + 1` (with a `NULL`/empty maximum read as `0`);
`now` stands for `datetime.now().isoformat()`. -/
def addedRow (db : DB) (podcast_name episode_title episode_url : String)
    (episode_guid published_date file_path drive_file_id : Option String)
    (file_size : Option Int) (podcast_seq : Option Int) (now : String) : EpisodeRow :=
  let seq : Int :=
    match podcast_seq with
    | some s => s
    | none => (maxSeqForPodcast db podcast_name).getD 0 + 1
  { id := db.nextEpisodeId
    podcast_name := podcast_name
    episode_title := episode_title
    episode_url := episode_url
    episode_guid := episode_guid
    published_date := published_date
    downloaded_date := now
    file_path := file_path
    drive_file_id := drive_file_id
    file_size := file_size
    status := "downloaded"
    in_drive := 0
    drive_file_url := none
    podcast_seq := some seq }

/-- `PodcastDatabase.add_episode` (`database.py` lines 81-111): append the
new row and return its id together with the updated catalog. -/
def add_episode (db : DB) (podcast_name episode_title episode_url : String)
    (episode_guid published_date file_path drive_file_id : Option String)
    (file_size : Option Int) (podcast_seq : Option Int) (now : String) : Nat × DB :=
  let row : EpisodeRow := addedRow db podcast_name episode_title episode_url
    episode_guid published_date file_path drive_file_id file_size podcast_seq now
  (db.nextEpisodeId,
    { db with episodes := db.episodes ++ [row], nextEpisodeId := db.nextEpisodeId + 1 })

/-- `PodcastDatabase.episode_exists` (`database.py` lines 113-128).  Note the
`if episode_url: … elif episode_guid: … else return False` structure: a truthy
url makes the guid irrelevant. -/
def episode_exists (db : DB) (episode_url episode_guid : Option String) : Bool :=
  if strTruthy episode_url then
    db.episodes.any (fun r => decide (r.episode_url = episode_url.getD ""))
  else if strTruthy episode_guid then
    db.episodes.any (fun r => decide (r.episode_guid = some (episode_guid.getD "")))
  else false

/-- `PodcastDatabase.get_podcast` (`database.py` lines 239-248). -/
def get_podcast (db : DB) (name : String) : Option PodcastRow :=
  db.podcasts.find? (fun p => decide (p.name = name))

/-- `PodcastDatabase.mark_episode_in_drive` (`database.py` lines 177-185):
`UPDATE episodes SET in_drive = %s WHERE id = %s`. -/
def mark_episode_in_drive (db : DB) (episode_id : Nat) (inDrive : Bool) : DB :=
  { db with
    episodes := db.episodes.map (fun r =>
      if r.id = episode_id then { r with in_drive := if inDrive then 1 else 0 } else r) }

/-- The projected row shape returned by `get_episodes_with_drive`
(`SELECT id, drive_file_id, drive_file_url, downloaded_date …`). -/
structure DriveRow where
  id : Nat
  drive_file_id : Option String
  drive_file_url : Option String
  downloaded_date : String
deriving DecidableEq

/-- `PodcastDatabase.get_episodes_with_drive` (`database.py` lines 187-200):
rows of the feed with a non-null `drive_file_id` and `in_drive = 1`, ordered
by `downloaded_date` descending (newest discovery first). -/
def get_episodes_with_drive (db : DB) (name : String) : List DriveRow :=
  let rows := db.episodes.filter (fun r =>
    decide (r.podcast_name = name) && decide (r.drive_file_id ≠ none) && decide (r.in_drive = 1))
  (sortDescBy (fun a b => strLe a.downloaded_date b.downloaded_date) rows).map
    (fun r =>
      { id := r.id
        drive_file_id := r.drive_file_id
        drive_file_url := r.drive_file_url
        downloaded_date := r.downloaded_date })

/-! ### Feed candidates (`src/src/feed_parser.py` and selection in
`src/src/podcast_downloader.py` / `src/main.py`)

`RawEntry` models one `<item>` of the fetched RSS document after the XML
library has extracted its fields: the title text (`findtext` with a default,
hence always a string), the publish-date text if any tag supplied one, and the
`url` attributes of its `<enclosure>` children.  `Ep` models the episode
dictionary built at `feed_parser.py` lines 39-44 and enriched by `main.py`
(`db_id`, `podcast_seq`, `upload_num`).  The external `dateutil` parser is a
parameter `parse : String → Option Nat` (a parsed timestamp, `none` when it
raises); both call sites use the same function, as in the source. -/

structure RawEntry where
  title : String
  pubdate : Option String
  enclosureUrls : List (Option String)
deriving DecidableEq

structure Ep where
  title : Option String := none
  published : Option String := none
  parsed : Option Nat := none
  audio_url : Option String := none
  guid : Option String := none
  podcast_seq : Option Int := none
  upload_num : Option Int := none
  db_id : Option Int := none
deriving DecidableEq

/-- `if pubdate: parsed = dateparser.parse(pubdate)` guarded by truthiness,
with an exception mapped to `None` (`feed_parser.py` lines 26-31 and
`podcast_downloader.py` lines 34-40 are this same computation). -/
def parsedOf (parse : String → Option Nat) : Option String → Option Nat
  | none => none
  | some s => if s = "" then none else parse s

/-- First truthy `url` attribute among the item's enclosures
(`feed_parser.py` lines 33-38). -/
def audioOf (r : RawEntry) : Option String :=
  match r.enclosureUrls.find? strTruthy with
  | some u => u
  | none => none

/-- The episode dictionary built for one feed item (`feed_parser.py`
lines 39-44). -/
def entryToEp (parse : String → Option Nat) (r : RawEntry) : Ep :=
  { title := some r.title
    published := r.pubdate
    parsed := parsedOf parse r.pubdate
    audio_url := audioOf r }

/-- `PodcastFeedParser.get_latest_episodes` (`feed_parser.py` lines 11-51),
from the per-item dictionaries on: keep entries with a parsed date and an
audio url, sort by parsed date descending, truncate to `max_episodes`. -/
def feedGetLatestEpisodes (parse : String → Option Nat) (entries : List RawEntry)
    (max_episodes : Nat) : List Ep :=
  let eps := entries.map (entryToEp parse)
  let eps := eps.filter (fun e => e.parsed.isSome && strTruthy e.audio_url)
  (sortDescBy (fun a b => decide (a.parsed.getD 0 ≤ b.parsed.getD 0)) eps).take max_episodes

/-- `PodcastDownloader.get_latest_episodes` (`podcast_downloader.py` lines
29-44): re-parse each episode's `published` text, drop unparseable ones, sort
the `(parsed, ep)` pairs by parsed date descending and return the newest 5. -/
def downloaderGetLatest (parse : String → Option Nat) (episodes : List Ep) : List Ep :=
  let withDates := episodes.filterMap (fun ep =>
    match parsedOf parse ep.published with
    | some d => some (d, ep)
    | none => none)
  ((sortDescBy (fun a b => decide (a.1 ≤ b.1)) withDates).take 5).map (fun x => x.2)

/-- Candidate selection in `PodcastService.process_single_podcast`
(`main.py` lines 192-204): fetch up to 50 entries, bail out on an empty
result, re-sort and cap at 5, then reverse to oldest-first upload order. -/
def selectCandidates (parse : String → Option Nat) (entries : List RawEntry) : List Ep :=
  let episodes := feedGetLatestEpisodes parse entries 50
  if episodes.isEmpty then []
  else (downloaderGetLatest parse episodes).reverse

/-! ### Filename generation (`src/src/podcast_downloader.py` lines 123-174)

Helpers model the Python string operations used there: `str.split()` (on
whitespace runs), `str.split('_')`, `str.strip('. ')`, slicing with a possibly
negative bound, and — as models of the external standard library —
`urllib.parse.urlparse(...).path`, `urllib.parse.unquote` and
`pathlib.Path(...).suffix`. -/

/-- The whitespace set of Python `str.split()` (ASCII cases). -/
def pyIsSpace (c : Char) : Bool :=
  c = ' ' || c = '\t' || c = '\n' || c = '\x0d' || c = '\x0b' || c = '\x0c'

/-- Split on a separator predicate, keeping empty fields, as Python
`str.split(sep)` does. -/
def splitOnPred (p : Char → Bool) : List Char → List (List Char)
  | [] => [[]]
  | c :: rest =>
    let r := splitOnPred p rest
    if p c then [] :: r
    else
      match r with
      | [] => [[c]]
      | t :: ts => (c :: t) :: ts

/-- Python `str.strip(chars)`: drop the given characters from both ends. -/
def stripBoth (bad : List Char) (cs : List Char) : List Char :=
  ((cs.dropWhile (fun c => bad.contains c)).reverse.dropWhile (fun c => bad.contains c)).reverse

/-- The body of `PodcastDownloader._sanitize_filename` before its final
empty-string fallback (`podcast_downloader.py` lines 154-168): replace the
Windows-invalid characters by `_`, collapse whitespace runs to single spaces,
collapse `_` runs, and strip leading/trailing dots and spaces. -/
def sanitize_core (filename : String) : List Char :=
  let cs := filename.toList.map (fun c =>
    if ['<', '>', ':', '"', '/', '\\', '|', '?', '*'].contains c then '_' else c)
  let cs := List.intercalate [' '] ((splitOnPred pyIsSpace cs).filter (fun t => t ≠ []))
  let cs := List.intercalate ['_'] ((splitOnPred (fun c => c = '_') cs).filter (fun t => t ≠ []))
  stripBoth ['.', ' '] cs

/-- `PodcastDownloader._sanitize_filename` (`podcast_downloader.py` lines
154-174), including the `'untitled'` fallback. -/
def sanitize_filename (filename : String) : String :=
  let r := sanitize_core filename
  if r = [] then "untitled" else String.mk r

/-- The characters after the first occurrence of `"://"`, if any. -/
def afterSchemeSep : List Char → Option (List Char)
  | ':' :: '/' :: '/' :: rest => some rest
  | _ :: rest => afterSchemeSep rest
  | [] => none

/-- Model of `urllib.parse.urlparse(url).path` for the URL shapes the
downloader sees: strip the fragment and query, then the `scheme://netloc`
part; the path starts at the first `/` after the authority. -/
def urlparsePath (url : String) : String :=
  let cs := url.toList.takeWhile (fun c => c ≠ '#')
  let cs := cs.takeWhile (fun c => c ≠ '?')
  match afterSchemeSep cs with
  | some rest => String.mk (rest.dropWhile (fun c => c ≠ '/'))
  | none => String.mk cs

def hexVal (c : Char) : Nat :=
  if '0' ≤ c ∧ c ≤ '9' then c.toNat - '0'.toNat
  else if 'a' ≤ c ∧ c ≤ 'f' then c.toNat - 'a'.toNat + 10
  else if 'A' ≤ c ∧ c ≤ 'F' then c.toNat - 'A'.toNat + 10
  else 0

def isHexDigit (c : Char) : Bool :=
  ('0' ≤ c && c ≤ '9') || ('a' ≤ c && c ≤ 'f') || ('A' ≤ c && c ≤ 'F')

def unquoteChars : List Char → List Char
  | '%' :: a :: b :: rest =>
    if isHexDigit a && isHexDigit b then Char.ofNat (hexVal a * 16 + hexVal b) :: unquoteChars rest
    else '%' :: unquoteChars (a :: b :: rest)
  | c :: rest => c :: unquoteChars rest
  | [] => []

/-- Model of `urllib.parse.unquote` (single-byte percent escapes). -/
def unquote (s : String) : String := String.mk (unquoteChars s.toList)

/-- The final component of a POSIX path, as `pathlib.PurePath(...).name`
computes it (trailing slashes ignored). -/
def pathName (p : String) : List Char :=
  match ((splitOnPred (fun c => c = '/') p.toList).filter (fun t => t ≠ [])).getLast? with
  | some t => t
  | none => []

/-- Model of `pathlib.Path(path).suffix`: the extension of the final
component — the part from its last dot on, provided that dot is neither the
first nor the last character of the name. -/
def pathSuffix (p : String) : String :=
  let name := pathName p
  if name.contains '.' then
    let k := (name.reverse.takeWhile (fun c => c ≠ '.')).length
    let i := name.length - k - 1
    if 0 < i ∧ k ≥ 1 then String.mk (name.drop i) else ""
  else ""

/-- Python slicing `s[:n]` where `n` may be negative: a negative bound drops
characters from the end. -/
def pySlice (s : String) (n : Int) : String :=
  if 0 ≤ n then String.mk (s.toList.take n.toNat)
  else String.mk (s.toList.take (s.length - (-n).toNat))

/-- The `is not None` chain choosing the filename's numeric leader in
`_generate_filename` (`podcast_downloader.py` lines 134-140):
`podcast_seq`, else `upload_num`, else `db_id`. -/
def namePrefixChoice (ep : Ep) : Option Int :=
  if ep.podcast_seq.isSome then ep.podcast_seq
  else if ep.upload_num.isSome then ep.upload_num
  else ep.db_id

/-- The extension choice of `_generate_filename` (`podcast_downloader.py`
lines 125-129): the URL path's suffix unless it is empty or longer than 5
characters, in which case `.mp3`. -/
def extUsedFor (audio_url : String) : String :=
  let ext0 := pathSuffix (unquote (urlparsePath audio_url))
  if ext0 = "" ∨ 5 < ext0.length then ".mp3" else ext0

/-- `PodcastDownloader._generate_filename` (`podcast_downloader.py` lines
123-152), including the 200-character truncation re-assembly. -/
def generate_filename (ep : Ep) (audio_url : String) : String :=
  let extension := extUsedFor audio_url
  let safe_title := sanitize_filename (ep.title.getD "Untitled Episode")
  let pfx := namePrefixChoice ep
  let filename :=
    match pfx with
    | some p => toString p ++ "-" ++ safe_title ++ extension
    | none => safe_title ++ extension
  if 200 < filename.length then
    let maxTitleLen : Int := 200 - (extension.length : Int) -
      (match pfx with
       | some p => ((toString p).length : Int) + 1
       | none => 0)
    let safe2 := pySlice safe_title maxTitleLen
    match pfx with
    | some p => toString p ++ "-" ++ safe2 ++ extension
    | none => safe2 ++ extension
  else filename

/-! ### Orchestration (`src/main.py`)

The database-changing part of the per-feed loop and the retention step, with
the external Drive delete call and the per-feed processing result supplied as
oracles. -/

/-- The dedup-and-insert loop of `PodcastService.process_single_podcast`
(`main.py` lines 206-234): for each candidate in oldest-first order, skip it
when `episode_exists` matches its `audio_url`/`guid`, otherwise insert a row
via `add_episode` (with `file_path`/`file_size`/`drive id`/`podcast_seq` all
`None`, and missing dictionary keys defaulted to `''`).  Only the episode
table is affected; `now` stands for the insert timestamps of the pass. -/
def insertPhase (podcast_name now : String) (db : DB) : List Ep → DB
  | [] => db
  | ep :: rest =>
    if episode_exists db ep.audio_url ep.guid then
      insertPhase podcast_name now db rest
    else
      let res := add_episode db podcast_name (ep.title.getD "") (ep.audio_url.getD "")
        (some (ep.guid.getD "")) (some (ep.published.getD "")) none none none none now
      insertPhase podcast_name now res.2 rest

/-- Stripping an existing leading `digits-` run from a generated filename
before re-prefixing for Drive (`main.py` lines 255-260): split once on `-`
and drop the first part when it is a non-empty digit string. -/
def stripSeqLead (filename : String) : String :=
  if filename.toList.contains '-' then
    let first := filename.toList.takeWhile (fun c => c ≠ '-')
    let restPart := (filename.toList.dropWhile (fun c => c ≠ '-')).drop 1
    if first ≠ [] && first.all Char.isDigit then String.mk restPart else filename
  else filename

/-- `prefix_for_drive = episode.get('podcast_seq') or episode.get('upload_num')
or episode.get('db_id')` (`main.py` line 262), with Python `or` falsiness. -/
def chooseDriveNum (seq upload dbid : Option Int) : Option Int :=
  pyOrInt seq (pyOrInt upload dbid)

/-- The Drive filename computed at `main.py` lines 254-263: when a numeric
leader is available, prepend it to the filename with any existing `digits-`
leader removed; otherwise keep the filename. -/
def driveFileName (num : Option Int) (filename : String) : String :=
  match num with
  | some p => toString p ++ "-" ++ stripSeqLead filename
  | none => filename

/-- Result of one `drive_uploader.delete_file` call (`main.py` line 333):
the call can return `True`, return a falsy value, or raise. -/
inductive DeleteOutcome
  | returnsTrue
  | returnsFalse
  | raises
deriving DecidableEq

/-- One iteration of the retention deletion loop (`main.py` lines 328-340):
guarded by `if file_id:`, delete remotely; on a `True` result clear the
`in_drive` flag, on a falsy result or an exception leave the row untouched.
Returns the updated catalog and the deleted file id, if any. -/
def retentionStep (oracle : String → DeleteOutcome) (db : DB) (ep : DriveRow) :
    DB × Option String :=
  let fid := ep.drive_file_id.getD ""
  if strTruthy ep.drive_file_id then
    match oracle fid with
    | .returnsTrue => (mark_episode_in_drive db ep.id false, some fid)
    | .returnsFalse => (db, none)
    | .raises => (db, none)
  else (db, none)

/-- The whole `for ep in episodes_to_remove` loop (`main.py` lines 328-340);
the per-episode `try/except` means every element is processed no matter how
earlier deletions fared.  Also accumulates the successfully deleted ids. -/
def retentionLoop (oracle : String → DeleteOutcome) : DB → List DriveRow → DB × List String
  | db, [] => (db, [])
  | db, ep :: rest =>
    let s := retentionStep oracle db ep
    let t := retentionLoop oracle s.1 rest
    (t.1, s.2.toList ++ t.2)

/-- `effective_keep` resolution (`main.py` lines 299-315): the config value
wins, else the value stored on the podcast row, else `None`. -/
def effectiveKeep (cfgKeep dbKeep : Option Int) : Option Int :=
  match cfgKeep with
  | some k => some k
  | none => dbKeep

/-- The retention block of `process_single_podcast` (`main.py` lines
297-346): only a strictly positive effective keep-count with an available
uploader triggers deletions, and then exactly of the slice
`drive_episodes[effective_keep:]` of the newest-first present list. -/
def enforceRetention (cfgKeep : Option Int) (hasUploader : Bool)
    (oracle : String → DeleteOutcome) (db : DB) (name : String) : DB × List String :=
  let dbKeep := (get_podcast db name).map (fun p => p.keep_count)
  match effectiveKeep cfgKeep dbKeep with
  | some k =>
    if 0 < k ∧ hasUploader = true then
      let driveEps := get_episodes_with_drive db name
      let toRemove := driveEps.drop k.toNat
      retentionLoop oracle db toRemove
    else (db, [])
  | none => (db, [])

/-- Outcome of `process_single_podcast` for one feed as seen by the outer
loop: a result dictionary, or an exception escaping the call. -/
inductive FeedOutcome
  | ok (downloaded uploaded : Nat)
  | raises (msg : String)
deriving DecidableEq

/-- The accumulation loop of `PodcastService.process_podcasts` (`main.py`
lines 148-158): per-feed exceptions are caught, logged into the error list,
and the loop continues with the next feed. -/
def runFeeds : List (String × FeedOutcome) → Nat × Nat × List String → Nat × Nat × List String
  | [], acc => acc
  | (name, out) :: rest, (d, u, errs) =>
    match out with
    | .ok dd uu => runFeeds rest (d + dd, u + uu, errs)
    | .raises m =>
      runFeeds rest (d, u, errs ++ ["Error processing podcast " ++ name ++ ": " ++ m])

/-- The pass summary string built at `main.py` lines 160-162. -/
def mkStatusMsg (d u : Nat) (errs : List String) : String :=
  "Downloaded: " ++ toString d ++ ", Uploaded: " ++ toString u ++
    (if errs.isEmpty then "" else ", Errors: " ++ toString errs.length)

/-- Whether a message is a counts summary (it carries the
`"Downloaded: "` lead that every `mkStatusMsg` result has). -/
def isSummaryMsg (m : String) : Bool :=
  decide (m.toList.take 12 = ("Downloaded: ").toList)

/-- Observable result of one `process_podcasts` pass (`main.py` lines
127-166): the totals, the error list, and the run-history rows written
(`run_type`, `status`, `message`). -/
structure PassState where
  totalDownloaded : Nat
  totalUploaded : Nat
  errors : List String
  history : List (String × String × String)
deriving DecidableEq

/-- `PodcastService.process_podcasts` (`main.py` lines 127-166) over the
per-feed outcomes: a `started` run-history row, the early return when no
podcasts are configured, otherwise the catching fold over all feeds and a
`completed` row carrying the counts summary. -/
def processPodcasts (podcasts : List (String × FeedOutcome)) : PassState :=
  let started := [("process", "started", "Starting podcast processing")]
  if podcasts.isEmpty then
    { totalDownloaded := 0
      totalUploaded := 0
      errors := []
      history := started ++ [("process", "completed", "No podcasts configured")] }
  else
    let res := runFeeds podcasts (0, 0, [])
    { totalDownloaded := res.1
      totalUploaded := res.2.1
      errors := res.2.2
      history := started ++ [("process", "completed", mkStatusMsg res.1 res.2.1 res.2.2)] }

/-- Downloaded count a feed outcome contributes (`result.get('downloaded', 0)`). -/
def downloadedOf : FeedOutcome → Nat
  | .ok d _ => d
  | .raises _ => 0

/-- Uploaded count a feed outcome contributes. -/
def uploadedOf : FeedOutcome → Nat
  | .ok _ u => u
  | .raises _ => 0

/-- Whether a feed outcome is an escaped exception. -/
def isRaises : FeedOutcome → Bool
  | .ok _ _ => false
  | .raises _ => true

/-! ### Concrete sample data used to exercise the theorems -/

/-- A sample episode row with the given key fields. -/
def mkRow (id : Nat) (name url dd : String) (fid : Option String) (indrive : Nat)
    (seq : Option Int) : EpisodeRow :=
  { id := id
    podcast_name := name
    episode_title := "t"
    episode_url := url
    episode_guid := none
    published_date := none
    downloaded_date := dd
    file_path := none
    drive_file_id := fid
    file_size := none
    status := "downloaded"
    in_drive := indrive
    drive_file_url := none
    podcast_seq := seq }

/-- Sample catalog: one feed with an existing episode carrying sequence 4. -/
def dbSeq : DB :=
  { episodes := [mkRow 1 "Feed" "u1" "d1" none 1 (some 4)]
    podcasts := []
    nextEpisodeId := 2 }

/-- Sample catalog for the retention scenario: five episodes of one feed,
all present in Drive, discovered at increasing timestamps. -/
def dbRet : DB :=
  { episodes :=
      [ mkRow 1 "Feed" "u1" "2024-01-01" (some "g1") 1 (some 1)
      , mkRow 2 "Feed" "u2" "2024-01-02" (some "g2") 1 (some 2)
      , mkRow 3 "Feed" "u3" "2024-01-03" (some "g3") 1 (some 3)
      , mkRow 4 "Feed" "u4" "2024-01-04" (some "g4") 1 (some 4)
      , mkRow 5 "Feed" "u5" "2024-01-05" (some "g5") 1 (some 5) ]
    podcasts := []
    nextEpisodeId := 6 }

/-- Delete oracle that succeeds on every file id. -/
def oracleAllOk : String → DeleteOutcome := fun _ => .returnsTrue

/-- A projected Drive row with the given id, file id and discovery date. -/
def drvRow (i : Nat) (g dd : String) : DriveRow :=
  { id := i, drive_file_id := some g, drive_file_url := none, downloaded_date := dd }

/-- Sample catalog with one row matching url `"a"` and guid `"g"`. -/
def dbGuid : DB :=
  { episodes := [{ mkRow 1 "Feed" "a" "d1" none 0 (some 1) with episode_guid := some "g" }]
    podcasts := []
    nextEpisodeId := 2 }

/-- Sample candidate episodes for the dedup/insert loop. -/
def candA : Ep := { title := some "A", published := some "pa", audio_url := some "ua" }

def candB : Ep := { title := some "B", published := some "pb", audio_url := some "ub" }

/-- Sample 12-entry feed for candidate selection: entries 2, 5, 8 and 11
are the only ones with both a parseable date and an audio enclosure. -/
def entries12 : List RawEntry :=
  [ { title := "e0", pubdate := none, enclosureUrls := [some "x0"] }
  , { title := "e1", pubdate := some "bad", enclosureUrls := [some "x1"] }
  , { title := "e2", pubdate := some "d3", enclosureUrls := [some "x2"] }
  , { title := "e3", pubdate := some "d9", enclosureUrls := [] }
  , { title := "e4", pubdate := some "", enclosureUrls := [some "x4"] }
  , { title := "e5", pubdate := some "d7", enclosureUrls := [none, some "x5"] }
  , { title := "e6", pubdate := some "d8", enclosureUrls := [some ""] }
  , { title := "e7", pubdate := none, enclosureUrls := [] }
  , { title := "e8", pubdate := some "d1", enclosureUrls := [some "x8"] }
  , { title := "e9", pubdate := some "bad", enclosureUrls := [some "x9"] }
  , { title := "e10", pubdate := some "d5", enclosureUrls := [] }
  , { title := "e11", pubdate := some "d5", enclosureUrls := [some "x11"] } ]

/-- Sample date parse function: `d1 < d3 < d5 < d7 < d8 < d9`, `bad` fails. -/
def parse12 : String → Option Nat := fun s =>
  if s = "d1" then some 1
  else if s = "d3" then some 3
  else if s = "d5" then some 5
  else if s = "d7" then some 7
  else if s = "d8" then some 8
  else if s = "d9" then some 9
  else none

/-- The episode dictionary of the C8 filename scenario. -/
def epColon : Ep := { title := some "My: Show/Title", podcast_seq := some 7 }

/-- An episode dictionary with an absurdly large sequence number and a long
title, overflowing the 200-character cap. -/
def epHugeSeq : Ep :=
  { title := some (String.mk (List.replicate 300 'a')), podcast_seq := some (10 ^ 200) }

/-! ## Theorems -/

/-! ### Facts about the descending insertion sort -/

theorem insertDescBy_perm (le : α → α → Bool) (x : α) (l : List α) :
    List.Perm (insertDescBy le x l) (x :: l) := by
  induction l with
  | nil => simp [insertDescBy]
  | cons y ys ih =>
    simp only [insertDescBy]
    by_cases h : le x y = true
    · simp only [h, if_true]
      exact List.Perm.trans (List.Perm.cons y ih) (List.Perm.swap x y ys)
    · simp [h]

theorem sortDescBy_perm (le : α → α → Bool) (l : List α) :
    List.Perm (sortDescBy le l) l := by
  induction l with
  | nil => simp [sortDescBy]
  | cons x xs ih =>
    exact List.Perm.trans (insertDescBy_perm le x (sortDescBy le xs)) (List.Perm.cons x ih)

theorem insertDescBy_pairwise (le : α → α → Bool)
    (htot : ∀ a b, le a b = true ∨ le b a = true)
    (htrans : ∀ a b c, le a b = true → le b c = true → le a c = true)
    (x : α) (l : List α) (h : l.Pairwise fun a b => le b a = true) :
    (insertDescBy le x l).Pairwise fun a b => le b a = true := by
  induction l with
  | nil => simp [insertDescBy]
  | cons y ys ih =>
    rcases List.pairwise_cons.mp h with ⟨hy, hys⟩
    simp only [insertDescBy]
    by_cases hxy : le x y = true
    · simp only [hxy, if_true]
      refine List.pairwise_cons.mpr ⟨?_, ih hys⟩
      intro z hz
      have hz' : z ∈ x :: ys := (insertDescBy_perm le x ys).mem_iff.mp hz
      rcases List.mem_cons.mp hz' with rfl | hz2
      · exact hxy
      · exact hy z hz2
    · have hyx : le y x = true := by
        rcases htot x y with h1 | h1
        · exact absurd h1 hxy
        · exact h1
      simp only [hxy, if_false]
      refine List.pairwise_cons.mpr ⟨?_, h⟩
      intro z hz
      rcases List.mem_cons.mp hz with rfl | hz2
      · exact hyx
      · exact htrans z y x (hy z hz2) hyx

theorem sortDescBy_pairwise (le : α → α → Bool)
    (htot : ∀ a b, le a b = true ∨ le b a = true)
    (htrans : ∀ a b c, le a b = true → le b c = true → le a c = true)
    (l : List α) :
    (sortDescBy le l).Pairwise fun a b => le b a = true := by
  induction l with
  | nil => simp [sortDescBy]
  | cons x xs ih => exact insertDescBy_pairwise le htot htrans x (sortDescBy le xs) ih

/-! ### Facts about the SQL `MAX` model -/

theorem listMaxO_fold_some (l : List Int) (m : Int) :
    ∃ m', (l.foldl (fun acc v => match acc with
        | none => some v
        | some a => some (max a v)) (some m)) = some m' ∧
      m ≤ m' ∧ ∀ v ∈ l, v ≤ m' := by
  induction l generalizing m with
  | nil => exact ⟨m, rfl, le_refl m, by simp⟩
  | cons x xs ih =>
    rcases ih (max m x) with ⟨m', hm', hle, hall⟩
    refine ⟨m', hm', le_trans (le_max_left m x) hle, ?_⟩
    intro v hv
    rcases List.mem_cons.mp hv with rfl | hv2
    · exact le_trans (le_max_right m v) hle
    · exact hall v hv2

theorem listMaxO_le_of_mem (l : List Int) (v : Int) (h : v ∈ l) :
    v ≤ (listMaxO l).getD 0 := by
  cases l with
  | nil => cases h
  | cons x xs =>
    rcases listMaxO_fold_some xs x with ⟨m', hm', hle, hall⟩
    have hfold : listMaxO (x :: xs) = some m' := by
      simpa [listMaxO] using hm'
    rw [hfold]
    rcases List.mem_cons.mp h with rfl | h2
    · exact hle
    · exact hall v h2

theorem seqsOf_eq_nil_of_no_rows (db : DB) (name : String)
    (h : ∀ r ∈ db.episodes, r.podcast_name ≠ name) : seqsOf db name = [] := by
  apply List.filterMap_eq_nil_iff.mpr
  intro r hr
  simp [h r hr]

theorem seqsOf_add_episode (db : DB) (name title url : String)
    (guid pub fp dfid : Option String) (fs : Option Int) (now : String) :
    seqsOf (add_episode db name title url guid pub fp dfid fs none now).2 name =
      seqsOf db name ++ [(maxSeqForPodcast db name).getD 0 + 1] := by
  simp [add_episode, addedRow, seqsOf, List.filterMap_append]

/-- C1: an `add_episode` call without an explicit sequence argument appends a
single row whose `podcast_seq` is one plus the feed's maximum existing
sequence (`1` when the feed has no episodes); that value strictly exceeds
every sequence value already recorded for the feed, so sequential inserts
yield strictly increasing, pairwise distinct values — in particular,
distinctness of the feed's sequence values is preserved. -/
theorem add_episode_seq_spec (db : DB) (name title url : String)
    (guid pub fp dfid : Option String) (fs : Option Int) (now : String) :
    ∃ row : EpisodeRow,
      (add_episode db name title url guid pub fp dfid fs none now).2.episodes =
        db.episodes ++ [row] ∧
      row.podcast_name = name ∧
      row.podcast_seq = some ((maxSeqForPodcast db name).getD 0 + 1) ∧
      ((∀ r ∈ db.episodes, r.podcast_name ≠ name) → row.podcast_seq = some 1) ∧
      (∀ s ∈ seqsOf db name, s < (maxSeqForPodcast db name).getD 0 + 1) ∧
      (List.Pairwise (fun a b => a ≠ b) (seqsOf db name) →
        List.Pairwise (fun a b => a ≠ b)
          (seqsOf (add_episode db name title url guid pub fp dfid fs none now).2 name)) := by
  refine ⟨_, rfl, rfl, rfl, ?_, ?_, ?_⟩
  · intro hno
    have h0 : seqsOf db name = [] := seqsOf_eq_nil_of_no_rows db name hno
    simp [add_episode, addedRow, maxSeqForPodcast, h0, listMaxO]
  · intro s hs
    have h1 := listMaxO_le_of_mem (seqsOf db name) s hs
    have h2 : (maxSeqForPodcast db name).getD 0 = (listMaxO (seqsOf db name)).getD 0 := rfl
    omega
  · intro hpw
    rw [seqsOf_add_episode]
    refine List.pairwise_append.mpr ⟨hpw, List.pairwise_singleton _ _, ?_⟩
    intro a ha b hb
    have hlt : a < (maxSeqForPodcast db name).getD 0 + 1 := by
      have h1 := listMaxO_le_of_mem (seqsOf db name) a ha
      have h2 : (maxSeqForPodcast db name).getD 0 = (listMaxO (seqsOf db name)).getD 0 := rfl
      omega
    rcases List.mem_singleton.mp hb with rfl
    omega

/-- Closed instance of `add_episode_seq_spec` on a concrete catalog: the feed
already holds sequence 4, so the new row gets sequence 5. -/
theorem add_episode_seq_spec_witness :
    ∃ row : EpisodeRow,
      (add_episode dbSeq "Feed" "T" "u9" none none none none none none "t9").2.episodes =
        dbSeq.episodes ++ [row] ∧
      row.podcast_name = "Feed" ∧
      row.podcast_seq = some ((maxSeqForPodcast dbSeq "Feed").getD 0 + 1) ∧
      ((∀ r ∈ dbSeq.episodes, r.podcast_name ≠ "Feed") → row.podcast_seq = some 1) ∧
      (∀ s ∈ seqsOf dbSeq "Feed", s < (maxSeqForPodcast dbSeq "Feed").getD 0 + 1) ∧
      (List.Pairwise (fun a b => a ≠ b) (seqsOf dbSeq "Feed") →
        List.Pairwise (fun a b => a ≠ b)
          (seqsOf (add_episode dbSeq "Feed" "T" "u9" none none none none none none "t9").2
            "Feed")) :=
  add_episode_seq_spec dbSeq "Feed" "T" "u9" none none none none none "t9"

/-! ### C4: the dedup lookup -/

/-- C4 (counterexample): `episode_exists` called with both keys is *not*
"true iff some row matches either supplied key" — on a catalog whose only row
matches the supplied guid but not the supplied url, it returns `false`. -/
theorem episode_exists_either_key_cex :
    ¬ (episode_exists dbGuid (some "u") (some "g") = true ↔
        ∃ r ∈ dbGuid.episodes, r.episode_url = "u" ∨ r.episode_guid = some "g") := by
  decide

/-- C4 (amended): `episode_exists` checks the keys in order — with a truthy
url it is true iff some row's `episode_url` equals it (the guid is ignored);
with a falsy url and a truthy guid it is true iff some row's `episode_guid`
equals it; with neither key truthy it is false. -/
theorem episode_exists_key_cases (db : DB) (url guid : Option String) :
    (strTruthy url = true →
      (episode_exists db url guid = true ↔
        ∃ r ∈ db.episodes, r.episode_url = url.getD "")) ∧
    (strTruthy url = false → strTruthy guid = true →
      (episode_exists db url guid = true ↔
        ∃ r ∈ db.episodes, r.episode_guid = some (guid.getD ""))) ∧
    (strTruthy url = false → strTruthy guid = false →
      episode_exists db url guid = false) := by
  refine ⟨?_, ?_, ?_⟩
  · intro hu
    simp [episode_exists, hu, List.any_eq_true]
  · intro hu hg
    simp [episode_exists, hu, hg, List.any_eq_true]
  · intro hu hg
    simp [episode_exists, hu, hg]

/-- Closed instance of `episode_exists_key_cases`: a url-only query on the
sample catalog matches its row by url. -/
theorem episode_exists_key_cases_witness :
    strTruthy (some "a") = true ∧
      (episode_exists dbGuid (some "a") none = true ↔
        ∃ r ∈ dbGuid.episodes, r.episode_url = (some "a").getD "") :=
  ⟨by decide, (episode_exists_key_cases dbGuid (some "a") none).1 (by decide)⟩

/-! ### C3: dedup makes a repeated pass a no-op -/

theorem add_episode_mem (db : DB) (name title url : String)
    (guid pub fp dfid : Option String) (fs : Option Int) (sq : Option Int) (now : String)
    (r : EpisodeRow) (hr : r ∈ db.episodes) :
    r ∈ (add_episode db name title url guid pub fp dfid fs sq now).2.episodes := by
  simp only [add_episode]
  exact List.mem_append_left _ hr

theorem insertPhase_mem (name now : String) :
    ∀ (cs : List Ep) (db : DB) (r : EpisodeRow), r ∈ db.episodes →
      r ∈ (insertPhase name now db cs).episodes := by
  intro cs
  induction cs with
  | nil => intro db r hr; exact hr
  | cons ep rest ih =>
    intro db r hr
    simp only [insertPhase]
    by_cases hex : episode_exists db ep.audio_url ep.guid = true
    · rw [if_pos hex]
      exact ih db r hr
    · rw [if_neg hex]
      exact ih _ r (add_episode_mem db name (ep.title.getD "") (ep.audio_url.getD "")
        (some (ep.guid.getD "")) (some (ep.published.getD "")) none none none none now r hr)

theorem episode_exists_mono (db db' : DB)
    (hsub : ∀ r ∈ db.episodes, r ∈ db'.episodes) (u g : Option String)
    (h : episode_exists db u g = true) : episode_exists db' u g = true := by
  by_cases hu : strTruthy u = true
  · simp only [episode_exists, hu, if_true, List.any_eq_true] at h ⊢
    obtain ⟨r, hr, hru⟩ := h
    exact ⟨r, hsub r hr, hru⟩
  · have hu' : strTruthy u = false := by simpa using hu
    by_cases hg : strTruthy g = true
    · simp only [episode_exists, hu', Bool.false_eq_true, if_false, hg, if_true,
        List.any_eq_true] at h ⊢
      obtain ⟨r, hr, hrg⟩ := h
      exact ⟨r, hsub r hr, hrg⟩
    · have hg' : strTruthy g = false := by simpa using hg
      simp [episode_exists, hu', hg'] at h

theorem episode_exists_after_add (db : DB) (name title u : String) (hu : u ≠ "")
    (guid pub fp dfid : Option String) (fs sq : Option Int) (now : String)
    (g2 : Option String) :
    episode_exists (add_episode db name title u guid pub fp dfid fs sq now).2
      (some u) g2 = true := by
  simp only [episode_exists, strTruthy, decide_eq_true_eq, Option.getD_some]
  rw [if_pos hu]
  rw [List.any_eq_true]
  refine ⟨addedRow db name title u guid pub fp dfid fs sq now, ?_, ?_⟩
  · simp only [add_episode]
    exact List.mem_append_right _ (List.mem_singleton.mpr rfl)
  · simp [addedRow]

theorem insertPhase_all_exist (name now : String) :
    ∀ (cs : List Ep) (db : DB), (∀ c ∈ cs, strTruthy c.audio_url = true) →
      ∀ c ∈ cs, episode_exists (insertPhase name now db cs) c.audio_url c.guid = true := by
  intro cs
  induction cs with
  | nil => intro db _ c hc; cases hc
  | cons ep rest ih =>
    intro db hall c hc
    have hrest : ∀ c ∈ rest, strTruthy c.audio_url = true := by
      intro x hx; exact hall x (List.mem_cons_of_mem ep hx)
    simp only [insertPhase]
    by_cases hex : episode_exists db ep.audio_url ep.guid = true
    · rw [if_pos hex]
      rcases List.mem_cons.mp hc with rfl | hc2
      · exact episode_exists_mono db _ (fun r hr => insertPhase_mem name now rest db r hr)
          c.audio_url c.guid hex
      · exact ih db hrest c hc2
    · rw [if_neg hex]
      rcases List.mem_cons.mp hc with rfl | hc2
      · have htr : strTruthy c.audio_url = true := hall c (List.mem_cons_self c rest)
        obtain ⟨s, hs, hsne⟩ : ∃ s, c.audio_url = some s ∧ s ≠ "" := by
          cases hau : c.audio_url with
          | none => rw [hau] at htr; simp [strTruthy] at htr
          | some s =>
            rw [hau] at htr
            simp only [strTruthy, decide_eq_true_eq] at htr
            exact ⟨s, rfl, htr⟩
        have hbase := episode_exists_after_add db name (c.title.getD "")
          (c.audio_url.getD "") (by simp [hs, hsne]) (some (c.guid.getD ""))
          (some (c.published.getD "")) none none none none now c.guid
        have heq : some (c.audio_url.getD "") = c.audio_url := by simp [hs]
        rw [heq] at hbase
        exact episode_exists_mono _ _
          (fun r hr => insertPhase_mem name now rest _ r hr) c.audio_url c.guid hbase
      · exact ih _ hrest c hc2

theorem insertPhase_noop (name now : String) :
    ∀ (cs : List Ep) (db : DB),
      (∀ c ∈ cs, episode_exists db c.audio_url c.guid = true) →
      insertPhase name now db cs = db := by
  intro cs
  induction cs with
  | nil => intro db _; rfl
  | cons ep rest ih =>
    intro db hall
    simp only [insertPhase]
    rw [if_pos (hall ep (List.mem_cons_self ep rest))]
    exact ih db (fun c hc => hall c (List.mem_cons_of_mem ep hc))

/-- C3: when every candidate of a pass carries a (truthy) audio url — which
the feed filter guarantees — running the dedup-and-insert loop a second time
over the same candidates changes nothing: every candidate is matched by
`episode_exists` and skipped, and the episode table (indeed the whole
catalog state) is identical before and after the repeated pass. -/
theorem insertPhase_idempotent (db : DB) (cs : List Ep) (name now now2 : String)
    (h : ∀ c ∈ cs, strTruthy c.audio_url = true) :
    insertPhase name now2 (insertPhase name now db cs) cs =
      insertPhase name now db cs :=
  insertPhase_noop name now2 cs (insertPhase name now db cs)
    (insertPhase_all_exist name now cs db h)

/-- Closed instance of `insertPhase_idempotent` on a concrete catalog and two
concrete candidates. -/
theorem insertPhase_idempotent_witness :
    (∀ c ∈ [candA, candB], strTruthy c.audio_url = true) ∧
      insertPhase "Feed" "t2" (insertPhase "Feed" "t1" dbSeq [candA, candB]) [candA, candB] =
        insertPhase "Feed" "t1" dbSeq [candA, candB] :=
  ⟨by decide, insertPhase_idempotent dbSeq [candA, candB] "Feed" "t1" "t2" (by decide)⟩

/-! ### C6: per-episode behaviour of the retention deletion loop -/

/-- C6: for a surplus episode with a (truthy) remote file id: a successful
delete changes exactly the matching row's `in_drive` flag to 0 (every other
field and every other row is untouched, and the row itself is retained); a
falsy delete result or a raised exception leaves the catalog exactly as it
was (the row stays present); and in all three cases the loop continues with
the remaining surplus episodes. -/
theorem retention_failure_isolation (oracle : String → DeleteOutcome) (db : DB)
    (ep : DriveRow) (fid : String) (rest : List DriveRow)
    (hfid : ep.drive_file_id = some fid) (hne : fid ≠ "") :
    (oracle fid = .returnsTrue →
      retentionStep oracle db ep =
        ({ db with episodes := db.episodes.map (fun r =>
            if r.id = ep.id then { r with in_drive := 0 } else r) }, some fid)) ∧
    (oracle fid = .returnsFalse → retentionStep oracle db ep = (db, none)) ∧
    (oracle fid = .raises → retentionStep oracle db ep = (db, none)) ∧
    (retentionLoop oracle db (ep :: rest) =
      ((retentionLoop oracle (retentionStep oracle db ep).1 rest).1,
        (retentionStep oracle db ep).2.toList ++
          (retentionLoop oracle (retentionStep oracle db ep).1 rest).2)) := by
  refine ⟨?_, ?_, ?_, rfl⟩
  · intro ho
    simp [retentionStep, hfid, strTruthy, hne, ho, mark_episode_in_drive]
  · intro ho
    simp [retentionStep, hfid, strTruthy, hne, ho]
  · intro ho
    simp [retentionStep, hfid, strTruthy, hne, ho]

/-- Closed instance of `retention_failure_isolation` on the sample catalog. -/
theorem retention_failure_isolation_witness :
    (drvRow 1 "g1" "2024-01-01").drive_file_id = some "g1" ∧ "g1" ≠ "" ∧
    ((oracleAllOk "g1" = .returnsTrue →
      retentionStep oracleAllOk dbRet (drvRow 1 "g1" "2024-01-01") =
        ({ dbRet with episodes := dbRet.episodes.map (fun r =>
            if r.id = (drvRow 1 "g1" "2024-01-01").id then { r with in_drive := 0 } else r) },
          some "g1")) ∧
    (oracleAllOk "g1" = .returnsFalse →
      retentionStep oracleAllOk dbRet (drvRow 1 "g1" "2024-01-01") = (dbRet, none)) ∧
    (oracleAllOk "g1" = .raises →
      retentionStep oracleAllOk dbRet (drvRow 1 "g1" "2024-01-01") = (dbRet, none)) ∧
    (retentionLoop oracleAllOk dbRet [drvRow 1 "g1" "2024-01-01"] =
      ((retentionLoop oracleAllOk
          (retentionStep oracleAllOk dbRet (drvRow 1 "g1" "2024-01-01")).1 []).1,
        (retentionStep oracleAllOk dbRet (drvRow 1 "g1" "2024-01-01")).2.toList ++
          (retentionLoop oracleAllOk
            (retentionStep oracleAllOk dbRet (drvRow 1 "g1" "2024-01-01")).1 []).2))) :=
  ⟨rfl, by decide,
    retention_failure_isolation oracleAllOk dbRet (drvRow 1 "g1" "2024-01-01") "g1" []
      rfl (by decide)⟩

/-! ### C2: the retention pass on a 5-episode feed with keep-count 3 -/

theorem mark_twice_episodes (db : DB) (i j : Nat) :
    (mark_episode_in_drive (mark_episode_in_drive db j false) i false).episodes =
      db.episodes.map (fun r => if r.id = j ∨ r.id = i then { r with in_drive := 0 } else r) := by
  simp only [mark_episode_in_drive, List.map_map]
  congr 1
  funext r
  simp only [Function.comp]
  by_cases hj : r.id = j
  · rw [if_pos hj]
    by_cases hi : r.id = i
    · rw [if_pos (show ({ r with in_drive := 0 } : EpisodeRow).id = i from hi)]
      rw [if_pos (Or.inl hj)]
      rfl
    · rw [if_neg (show ¬ ({ r with in_drive := 0 } : EpisodeRow).id = i from hi)]
      rw [if_pos (Or.inl hj)]
      rfl
  · rw [if_neg hj]
    by_cases hi : r.id = i
    · rw [if_pos hi, if_pos (Or.inr hi)]
      rfl
    · rw [if_neg hi, if_neg (show ¬ (r.id = j ∨ r.id = i) from by
        intro hcon
        rcases hcon with h | h
        · exact hj h
        · exact hi h)]

/-- C2: with an effective keep-count of 3, an available uploader, and the
feed's present-in-Drive list being exactly `[e5, e4, e3, e2, e1]` (newest
discovery first), one retention pass whose remote deletes succeed deletes
exactly the remote objects of `e1` and `e2` (in that loop order `e2`, `e1`),
clears exactly those two rows' presence flags — leaving `e3`, `e4`, `e5` and
every other row untouched — while a keep-count of `-1`, or an absent one
(neither configured nor stored), leaves any catalog entirely unchanged with
no deletions, for any count of present episodes. -/
theorem retention_keep3_spec (db : DB) (name : String) (oracle : String → DeleteOutcome)
    (p1 p2 p3 p4 p5 : DriveRow) (f1 f2 : String)
    (hlist : get_episodes_with_drive db name = [p5, p4, p3, p2, p1])
    (hf1 : p1.drive_file_id = some f1) (hne1 : f1 ≠ "")
    (hf2 : p2.drive_file_id = some f2) (hne2 : f2 ≠ "")
    (ho1 : oracle f1 = .returnsTrue) (ho2 : oracle f2 = .returnsTrue) :
    (enforceRetention (some 3) true oracle db name).2 = [f2, f1] ∧
    (enforceRetention (some 3) true oracle db name).1.episodes =
      db.episodes.map (fun r =>
        if r.id = p2.id ∨ r.id = p1.id then { r with in_drive := 0 } else r) ∧
    (∀ r ∈ db.episodes, r.id ≠ p1.id → r.id ≠ p2.id →
      r ∈ (enforceRetention (some 3) true oracle db name).1.episodes) ∧
    (∀ (db2 : DB) (name2 : String) (cfg : Option Int),
      (cfg = some (-1) ∨
        (cfg = none ∧ (get_podcast db2 name2 = none ∨
          ∃ prow, get_podcast db2 name2 = some prow ∧ prow.keep_count = -1))) →
      enforceRetention cfg true oracle db2 name2 = (db2, [])) := by
  have hstep2 : retentionStep oracle db p2 = (mark_episode_in_drive db p2.id false, some f2) := by
    simp [retentionStep, hf2, strTruthy, hne2, ho2]
  have hstep1 : retentionStep oracle (mark_episode_in_drive db p2.id false) p1 =
      (mark_episode_in_drive (mark_episode_in_drive db p2.id false) p1.id false, some f1) := by
    simp [retentionStep, hf1, strTruthy, hne1, ho1]
  have hloop : retentionLoop oracle db [p2, p1] =
      (mark_episode_in_drive (mark_episode_in_drive db p2.id false) p1.id false, [f2, f1]) := by
    simp [retentionLoop, hstep2, hstep1]
  have henf : enforceRetention (some 3) true oracle db name =
      (mark_episode_in_drive (mark_episode_in_drive db p2.id false) p1.id false, [f2, f1]) := by
    have hcond : (0 : Int) < 3 ∧ true = true := ⟨by norm_num, rfl⟩
    simp only [enforceRetention, effectiveKeep, if_pos hcond, hlist]
    norm_num
    exact hloop
  refine ⟨?_, ?_, ?_, ?_⟩
  · rw [henf]
  · rw [henf]
    exact mark_twice_episodes db p1.id p2.id
  · intro r hr h1 h2
    rw [henf]
    have : (mark_episode_in_drive (mark_episode_in_drive db p2.id false) p1.id false).episodes =
        db.episodes.map (fun r =>
          if r.id = p2.id ∨ r.id = p1.id then { r with in_drive := 0 } else r) :=
      mark_twice_episodes db p1.id p2.id
    rw [this]
    refine List.mem_map.mpr ⟨r, hr, ?_⟩
    simp [h1, h2]
  · intro db2 name2 cfg hcase
    have key : effectiveKeep cfg ((get_podcast db2 name2).map (fun p => p.keep_count)) =
          some (-1) ∨
        effectiveKeep cfg ((get_podcast db2 name2).map (fun p => p.keep_count)) = none := by
      rcases hcase with rfl | ⟨rfl, hdb⟩
      · left; rfl
      · rcases hdb with hnone | ⟨prow, hp, hk⟩
        · right; simp [effectiveKeep, hnone]
        · left; simp [effectiveKeep, hp, hk]
    rcases key with hk2 | hk2
    · simp only [enforceRetention, hk2]
      rw [if_neg]
      intro hcon
      have := hcon.1
      norm_num at this
    · simp only [enforceRetention, hk2]

/-- Closed instance of `retention_keep3_spec` on the concrete 5-episode
catalog `dbRet`: the two oldest are deleted and unmarked, the three newest
stay present. -/
theorem retention_keep3_spec_witness :
    get_episodes_with_drive dbRet "Feed" =
      [drvRow 5 "g5" "2024-01-05", drvRow 4 "g4" "2024-01-04", drvRow 3 "g3" "2024-01-03",
        drvRow 2 "g2" "2024-01-02", drvRow 1 "g1" "2024-01-01"] ∧
    (enforceRetention (some 3) true oracleAllOk dbRet "Feed").2 = ["g2", "g1"] ∧
    (enforceRetention (some 3) true oracleAllOk dbRet "Feed").1.episodes =
      dbRet.episodes.map (fun r =>
        if r.id = (drvRow 2 "g2" "2024-01-02").id ∨ r.id = (drvRow 1 "g1" "2024-01-01").id then
          { r with in_drive := 0 }
        else r) := by
  have h := retention_keep3_spec dbRet "Feed" oracleAllOk
    (drvRow 1 "g1" "2024-01-01") (drvRow 2 "g2" "2024-01-02") (drvRow 3 "g3" "2024-01-03")
    (drvRow 4 "g4" "2024-01-04") (drvRow 5 "g5" "2024-01-05") "g1" "g2"
    (by decide) rfl (by decide) rfl (by decide) rfl rfl
  exact ⟨by decide, h.1, h.2.1⟩

/-! ### C7: the pass summary and per-feed failure isolation -/

theorem runFeeds_spec (l : List (String × FeedOutcome)) :
    ∀ (d u : Nat) (errs : List String),
      runFeeds l (d, u, errs) =
        (d + (l.map (fun pr => downloadedOf pr.2)).sum,
         u + (l.map (fun pr => uploadedOf pr.2)).sum,
         errs ++ l.filterMap (fun pr =>
           match pr.2 with
           | .ok _ _ => none
           | .raises m => some ("Error processing podcast " ++ pr.1 ++ ": " ++ m))) := by
  induction l with
  | nil => intro d u errs; simp [runFeeds]
  | cons pr rest ih =>
    intro d u errs
    obtain ⟨name, out⟩ := pr
    cases out with
    | ok dd uu =>
      have hstep : runFeeds ((name, FeedOutcome.ok dd uu) :: rest) (d, u, errs) =
          runFeeds rest (d + dd, u + uu, errs) := rfl
      rw [hstep, ih]
      simp [downloadedOf, uploadedOf, Nat.add_assoc]
    | raises m =>
      have hstep : runFeeds ((name, FeedOutcome.raises m) :: rest) (d, u, errs) =
          runFeeds rest (d, u,
            errs ++ ["Error processing podcast " ++ name ++ ": " ++ m]) := rfl
      rw [hstep, ih]
      simp [downloadedOf, uploadedOf]

theorem errList_length (l : List (String × FeedOutcome)) :
    (l.filterMap (fun pr =>
      match pr.2 with
      | .ok _ _ => none
      | .raises m => some ("Error processing podcast " ++ pr.1 ++ ": " ++ m))).length =
      l.countP (fun pr => isRaises pr.2) := by
  induction l with
  | nil => rfl
  | cons pr rest ih =>
    obtain ⟨name, out⟩ := pr
    cases out with
    | ok dd uu => simpa [List.countP_cons, isRaises] using ih
    | raises m => simpa [List.countP_cons, isRaises] using ih

theorem isSummaryMsg_mkStatusMsg (d u : Nat) (errs : List String) :
    isSummaryMsg (mkStatusMsg d u errs) = true := by
  simp only [isSummaryMsg, mkStatusMsg, decide_eq_true_eq]
  have hsplit : ("Downloaded: " ++ toString d ++ ", Uploaded: " ++ toString u ++
      (if errs.isEmpty then "" else ", Errors: " ++ toString errs.length)).toList =
      ("Downloaded: ").toList ++ ((toString d).toList ++ (", Uploaded: ").toList ++
        (toString u).toList ++
        (if errs.isEmpty then "" else ", Errors: " ++ toString errs.length).toList) := by
    simp [String.toList, String.data_append]
  rw [hsplit]
  have h12 : ("Downloaded: ").toList.length = 12 := rfl
  rw [show (12 : Nat) = ("Downloaded: ").toList.length from rfl]
  simp

/-- C7 (counterexample): on an empty feed-configuration sequence the pass
returns early — it does write a run-history entry, but its message is the
fixed text `"No podcasts configured"`, not a summary carrying
downloaded/uploaded/error counts, so the claim's universally quantified
summary guarantee fails at the empty sequence. -/
theorem processPodcasts_empty_cex :
    processPodcasts [] =
      { totalDownloaded := 0
        totalUploaded := 0
        errors := []
        history := [("process", "started", "Starting podcast processing"),
          ("process", "completed", "No podcasts configured")] } ∧
    isSummaryMsg "No podcasts configured" = false :=
  ⟨rfl, by decide⟩

/-- C7 (amended): for every *nonempty* sequence of feed configurations, an
exception raised while processing one feed is caught, recorded in the error
list, and does not prevent the remaining feeds from contributing — the totals
are the sums over all feeds and the error count is the number of raising
feeds — and the pass ends with a run-history entry whose message is the
downloaded/uploaded/errors summary (when no feeds are configured the pass
instead writes the run-history entry `"No podcasts configured"`). -/
theorem processPodcasts_summary (podcasts : List (String × FeedOutcome))
    (h : podcasts ≠ []) :
    (processPodcasts podcasts).totalDownloaded =
      (podcasts.map (fun pr => downloadedOf pr.2)).sum ∧
    (processPodcasts podcasts).totalUploaded =
      (podcasts.map (fun pr => uploadedOf pr.2)).sum ∧
    (processPodcasts podcasts).errors.length =
      podcasts.countP (fun pr => isRaises pr.2) ∧
    (processPodcasts podcasts).history =
      [("process", "started", "Starting podcast processing"),
        ("process", "completed",
          mkStatusMsg (processPodcasts podcasts).totalDownloaded
            (processPodcasts podcasts).totalUploaded (processPodcasts podcasts).errors)] ∧
    isSummaryMsg (mkStatusMsg (processPodcasts podcasts).totalDownloaded
      (processPodcasts podcasts).totalUploaded (processPodcasts podcasts).errors) = true := by
  have hne : podcasts.isEmpty = false := by
    cases podcasts with
    | nil => exact absurd rfl h
    | cons p rest => rfl
  have hrun := runFeeds_spec podcasts 0 0 []
  simp only [Nat.zero_add, List.nil_append] at hrun
  have hproc : processPodcasts podcasts =
      { totalDownloaded := (runFeeds podcasts (0, 0, [])).1
        totalUploaded := (runFeeds podcasts (0, 0, [])).2.1
        errors := (runFeeds podcasts (0, 0, [])).2.2
        history := [("process", "started", "Starting podcast processing"),
          ("process", "completed",
            mkStatusMsg (runFeeds podcasts (0, 0, [])).1 (runFeeds podcasts (0, 0, [])).2.1
              (runFeeds podcasts (0, 0, [])).2.2)] } := by
    simp [processPodcasts, hne]
  rw [hproc, hrun]
  refine ⟨rfl, rfl, errList_length podcasts, rfl, isSummaryMsg_mkStatusMsg _ _ _⟩

/-- Closed instance of `processPodcasts_summary`: one raising feed followed
by one succeeding feed; the pass still counts the second feed's work. -/
theorem processPodcasts_summary_witness :
    ([("A", FeedOutcome.raises "boom"), ("B", FeedOutcome.ok 2 3)] ≠
      ([] : List (String × FeedOutcome))) ∧
    ((processPodcasts [("A", FeedOutcome.raises "boom"), ("B", FeedOutcome.ok 2 3)]).totalDownloaded =
      ([("A", FeedOutcome.raises "boom"), ("B", FeedOutcome.ok 2 3)].map
        (fun pr => downloadedOf pr.2)).sum ∧
    (processPodcasts [("A", FeedOutcome.raises "boom"), ("B", FeedOutcome.ok 2 3)]).totalUploaded =
      ([("A", FeedOutcome.raises "boom"), ("B", FeedOutcome.ok 2 3)].map
        (fun pr => uploadedOf pr.2)).sum ∧
    (processPodcasts [("A", FeedOutcome.raises "boom"), ("B", FeedOutcome.ok 2 3)]).errors.length =
      [("A", FeedOutcome.raises "boom"), ("B", FeedOutcome.ok 2 3)].countP
        (fun pr => isRaises pr.2) ∧
    (processPodcasts [("A", FeedOutcome.raises "boom"), ("B", FeedOutcome.ok 2 3)]).history =
      [("process", "started", "Starting podcast processing"),
        ("process", "completed",
          mkStatusMsg
            (processPodcasts [("A", FeedOutcome.raises "boom"), ("B", FeedOutcome.ok 2 3)]).totalDownloaded
            (processPodcasts [("A", FeedOutcome.raises "boom"), ("B", FeedOutcome.ok 2 3)]).totalUploaded
            (processPodcasts [("A", FeedOutcome.raises "boom"), ("B", FeedOutcome.ok 2 3)]).errors)] ∧
    isSummaryMsg (mkStatusMsg
      (processPodcasts [("A", FeedOutcome.raises "boom"), ("B", FeedOutcome.ok 2 3)]).totalDownloaded
      (processPodcasts [("A", FeedOutcome.raises "boom"), ("B", FeedOutcome.ok 2 3)]).totalUploaded
      (processPodcasts [("A", FeedOutcome.raises "boom"), ("B", FeedOutcome.ok 2 3)]).errors) = true) :=
  ⟨by decide,
    processPodcasts_summary [("A", FeedOutcome.raises "boom"), ("B", FeedOutcome.ok 2 3)]
      (by decide)⟩

/-! ### C9: Drive re-prefixing never doubles the numeric leader -/

theorem toDigitsCore_length_mono :
    ∀ (f n : Nat) (ds : List Char), ds.length ≤ (Nat.toDigitsCore 10 f n ds).length := by
  intro f
  induction f with
  | zero => intro n ds; exact le_refl _
  | succ f ih =>
    intro n ds
    simp only [Nat.toDigitsCore]
    by_cases h : n / 10 = 0
    · rw [if_pos h]
      simp
    · rw [if_neg h]
      exact le_trans (by simp) (ih (n / 10) (Nat.digitChar (n % 10) :: ds))

theorem toDigitsCore_ne_nil (f n : Nat) (ds : List Char) (hf : 0 < f) :
    Nat.toDigitsCore 10 f n ds ≠ [] := by
  cases f with
  | zero => omega
  | succ f =>
    simp only [Nat.toDigitsCore]
    by_cases h : n / 10 = 0
    · rw [if_pos h]
      simp
    · rw [if_neg h]
      have := toDigitsCore_length_mono f (n / 10) (Nat.digitChar (n % 10) :: ds)
      intro hcon
      rw [hcon] at this
      simp at this

theorem digitChar_isDigit (m : Nat) (h : m < 10) : (Nat.digitChar m).isDigit = true := by
  interval_cases m <;> decide

theorem toDigitsCore_all_digits :
    ∀ (f n : Nat) (ds : List Char), (∀ c ∈ ds, c.isDigit = true) →
      ∀ c ∈ Nat.toDigitsCore 10 f n ds, c.isDigit = true := by
  intro f
  induction f with
  | zero => intro n ds hds; exact hds
  | succ f ih =>
    intro n ds hds c hc
    simp only [Nat.toDigitsCore] at hc
    by_cases h : n / 10 = 0
    · rw [if_pos h] at hc
      rcases List.mem_cons.mp hc with rfl | hc2
      · exact digitChar_isDigit _ (Nat.mod_lt n (by norm_num))
      · exact hds c hc2
    · rw [if_neg h] at hc
      refine ih (n / 10) (Nat.digitChar (n % 10) :: ds) ?_ c hc
      intro d hd
      rcases List.mem_cons.mp hd with rfl | hd2
      · exact digitChar_isDigit _ (Nat.mod_lt n (by norm_num))
      · exact hds d hd2

theorem natRepr_toList_facts (n : Nat) :
    (Nat.repr n).toList ≠ [] ∧ ∀ c ∈ (Nat.repr n).toList, c.isDigit = true := by
  have h1 : (Nat.repr n).toList = Nat.toDigits 10 n := rfl
  rw [h1]
  unfold Nat.toDigits
  exact ⟨toDigitsCore_ne_nil _ _ _ (Nat.succ_pos n),
    toDigitsCore_all_digits _ _ _ (by intro c hc; cases hc)⟩

theorem int_toString_nonneg (p : Int) (hp : 0 ≤ p) : toString p = Nat.repr p.toNat := by
  cases p with
  | ofNat m => rfl
  | negSucc m => simp at hp

theorem ne_dash_of_isDigit (c : Char) (h : c.isDigit = true) : c ≠ '-' := by
  intro hc
  subst hc
  simp [Char.isDigit] at h

theorem takeWhile_append_of_all (p : Char → Bool) (l r : List Char)
    (h : ∀ c ∈ l, p c = true) : (l ++ r).takeWhile p = l ++ r.takeWhile p := by
  induction l with
  | nil => simp
  | cons c cs ih =>
    simp only [List.cons_append, List.takeWhile_cons]
    rw [if_pos (h c (List.mem_cons_self c cs))]
    rw [ih (fun d hd => h d (List.mem_cons_of_mem c hd))]

theorem dropWhile_append_of_all (p : Char → Bool) (l r : List Char)
    (h : ∀ c ∈ l, p c = true) : (l ++ r).dropWhile p = r.dropWhile p := by
  induction l with
  | nil => simp
  | cons c cs ih =>
    simp only [List.cons_append, List.dropWhile_cons]
    rw [if_pos (h c (List.mem_cons_self c cs))]
    exact ih (fun d hd => h d (List.mem_cons_of_mem c hd))

theorem string_mk_toList (s : String) : String.mk s.toList = s := rfl

theorem stripSeqLead_of_lead (p : Int) (hp : 0 ≤ p) (rest : String) :
    stripSeqLead (toString p ++ "-" ++ rest) = rest := by
  obtain ⟨hne, hdig⟩ := natRepr_toList_facts p.toNat
  have hts : toString p = Nat.repr p.toNat := int_toString_nonneg p hp
  have hne' : (toString p).toList ≠ [] := by rw [hts]; exact hne
  have hdig' : ∀ c ∈ (toString p).toList, c.isDigit = true := by rw [hts]; exact hdig
  have hpred : ∀ c ∈ (toString p).toList, (decide (c ≠ '-')) = true := by
    intro c hc
    simpa using ne_dash_of_isDigit c (hdig' c hc)
  have hlist : (toString p ++ "-" ++ rest).toList =
      (toString p).toList ++ '-' :: rest.toList := by
    simp [String.toList, String.data_append]
  simp only [stripSeqLead, hlist]
  have hcont : ((toString p).toList ++ '-' :: rest.toList).contains '-' = true := by
    simp
  rw [if_pos hcont]
  rw [takeWhile_append_of_all _ _ _ hpred]
  rw [dropWhile_append_of_all _ _ _ hpred]
  simp only [List.takeWhile_cons, List.dropWhile_cons]
  have hdash : (decide (('-' : Char) ≠ '-')) = false := by decide
  rw [hdash]
  simp only [Bool.false_eq_true, if_false, List.append_nil, List.drop_succ_cons,
    List.drop_zero]
  rw [if_pos]
  · exact string_mk_toList rest
  · rw [Bool.and_eq_true]
    refine ⟨?_, ?_⟩
    · simpa using hne'
    · exact List.all_eq_true.mpr fun c hc => hdig' c hc

/-- C9: the Drive-naming step produces a name with exactly one numeric
leader: it always equals `prefix ++ "-" ++ (filename with any existing
`digits-` leader stripped)`; stripping the produced name recovers the same
stripped remainder, so the leader is never doubled, and applying the step
twice with the same number is the same as applying it once.  The number used
is `podcast_seq`, else `upload_num`, else the row id, in that order. -/
theorem driveFileName_single_lead (p : Int) (hp : 0 ≤ p) (filename : String)
    (seq upload dbid : Option Int) :
    driveFileName (some p) filename = toString p ++ "-" ++ stripSeqLead filename ∧
    stripSeqLead (driveFileName (some p) filename) = stripSeqLead filename ∧
    driveFileName (some p) (driveFileName (some p) filename) =
      driveFileName (some p) filename ∧
    (intTruthy seq = true → chooseDriveNum seq upload dbid = seq) ∧
    (intTruthy seq = false → intTruthy upload = true →
      chooseDriveNum seq upload dbid = upload) ∧
    (intTruthy seq = false → intTruthy upload = false →
      chooseDriveNum seq upload dbid = dbid) := by
  have hkey : stripSeqLead (toString p ++ "-" ++ stripSeqLead filename) =
      stripSeqLead filename := stripSeqLead_of_lead p hp (stripSeqLead filename)
  refine ⟨rfl, hkey, ?_, ?_, ?_, ?_⟩
  · show toString p ++ "-" ++ stripSeqLead (toString p ++ "-" ++ stripSeqLead filename) = _
    rw [hkey]
    rfl
  · intro h
    simp [chooseDriveNum, pyOrInt, h]
  · intro h1 h2
    simp [chooseDriveNum, pyOrInt, h1, h2]
  · intro h1 h2
    simp [chooseDriveNum, pyOrInt, h1, h2]

/-- Closed instance of `driveFileName_single_lead` with number 5 on a name
that already carries the leader `12-`. -/
theorem driveFileName_single_lead_witness :
    (0 : Int) ≤ 5 ∧
    (driveFileName (some 5) "12-abc.mp3" = toString (5 : Int) ++ "-" ++ stripSeqLead "12-abc.mp3" ∧
    stripSeqLead (driveFileName (some 5) "12-abc.mp3") = stripSeqLead "12-abc.mp3" ∧
    driveFileName (some 5) (driveFileName (some 5) "12-abc.mp3") =
      driveFileName (some 5) "12-abc.mp3" ∧
    (intTruthy (some 3) = true → chooseDriveNum (some 3) (some 2) (some 9) = some 3) ∧
    (intTruthy (some 3) = false → intTruthy (some 2) = true →
      chooseDriveNum (some 3) (some 2) (some 9) = some 2) ∧
    (intTruthy (some 3) = false → intTruthy (some 2) = false →
      chooseDriveNum (some 3) (some 2) (some 9) = some 9)) :=
  ⟨by decide, driveFileName_single_lead 5 (by decide) "12-abc.mp3" (some 3) (some 2) (some 9)⟩

/-! ### C8: the sanitizer on `"My: Show/Title"` -/

/-- C8 (counterexample): for the title `"My: Show/Title"` with numeric
leader 7 the generated filename is *not* `"7-My_Show_Title.mp3"`: replacing
`:` by `_` leaves the following space in place, so the sanitizer produces
`"My_ Show_Title"` (with a space) rather than `"My_Show_Title"`. -/
theorem generate_filename_colon_cex :
    generate_filename epColon "https://example.com/audio/ep" ≠ "7-My_Show_Title.mp3" ∧
    sanitize_filename "My: Show/Title" ≠ "My_Show_Title" := by
  refine ⟨?_, ?_⟩ <;> decide

/-- C8 (amended): for the title `"My: Show/Title"` and numeric leader 7 the
generated filename replaces `:` and `/` by `_` but keeps the space that
followed the colon, yielding `"7-My_ Show_Title.mp3"` — with the source
extension substituted for `.mp3` when the audio location's path carries a
resolvable one (here `.m4a`). -/
theorem generate_filename_colon_slash :
    generate_filename epColon "https://example.com/audio/ep" = "7-My_ Show_Title.mp3" ∧
    generate_filename epColon "https://example.com/audio/ep.m4a" = "7-My_ Show_Title.m4a" := by
  refine ⟨?_, ?_⟩ <;> decide

/-! ### C10: shape and length of generated filenames -/

theorem generate_filename_eq (ep : Ep) (url : String) :
    generate_filename ep url =
      (match namePrefixChoice ep with
       | some p =>
         if 200 < (toString p ++ "-" ++ sanitize_filename (ep.title.getD "Untitled Episode") ++
             extUsedFor url).length then
           toString p ++ "-" ++
             pySlice (sanitize_filename (ep.title.getD "Untitled Episode"))
               (200 - ((extUsedFor url).length : Int) - (((toString p).length : Int) + 1)) ++
             extUsedFor url
         else
           toString p ++ "-" ++ sanitize_filename (ep.title.getD "Untitled Episode") ++
             extUsedFor url
       | none =>
         if 200 < (sanitize_filename (ep.title.getD "Untitled Episode") ++
             extUsedFor url).length then
           pySlice (sanitize_filename (ep.title.getD "Untitled Episode"))
             (200 - ((extUsedFor url).length : Int) - 0) ++ extUsedFor url
         else sanitize_filename (ep.title.getD "Untitled Episode") ++ extUsedFor url) := by
  simp only [generate_filename]
  rcases namePrefixChoice ep with _ | p <;> rfl

theorem string_mk_length (l : List Char) : (String.mk l).length = l.length := rfl

theorem pySlice_length_le (s : String) (n : Int) (hn : 0 ≤ n) :
    (pySlice s n).length ≤ n.toNat := by
  simp only [pySlice, if_pos hn, string_mk_length, List.length_take]
  exact min_le_left _ _

theorem one_le_length_of_ne_empty (s : String) (h : s ≠ "") : 1 ≤ s.length := by
  cases s with
  | mk data =>
    cases data with
    | nil => exact absurd rfl h
    | cons c cs => simp [String.length]

theorem extUsedFor_pos (url : String) : 1 ≤ (extUsedFor url).length := by
  simp only [extUsedFor]
  by_cases h : pathSuffix (unquote (urlparsePath url)) = "" ∨
      5 < (pathSuffix (unquote (urlparsePath url))).length
  · rw [if_pos h]
    decide
  · rw [if_neg h]
    push_neg at h
    exact one_le_length_of_ne_empty _ h.1

set_option maxRecDepth 40000 in
/-- C10 (counterexample): the 200-character cap does not hold for every
episode dictionary — with a 201-digit `podcast_seq` the truncation bound goes
negative and the Python slice keeps most of the long title, so the generated
name is 500 characters long. -/
theorem generate_filename_cap_cex :
    200 < (generate_filename epHugeSeq "https://example.com/a.mp3").length := by
  decide

theorem truncated_len_le (st ext pstr : String)
    (hfit : pstr.length + 1 + ext.length ≤ 200) :
    (pstr ++ "-" ++
      pySlice st (200 - (ext.length : Int) - ((pstr.length : Int) + 1)) ++ ext).length ≤ 200 := by
  have hn : (0 : Int) ≤ 200 - (ext.length : Int) - ((pstr.length : Int) + 1) := by omega
  have hsl := pySlice_length_le st (200 - (ext.length : Int) - ((pstr.length : Int) + 1)) hn
  rw [String.length_append, String.length_append, String.length_append]
  have hdash : ("-" : String).length = 1 := rfl
  rw [hdash]
  omega

theorem truncated_len_le_nopre (st ext : String) (hfit : ext.length ≤ 200) :
    (pySlice st (200 - (ext.length : Int) - 0) ++ ext).length ≤ 200 := by
  have hn : (0 : Int) ≤ 200 - (ext.length : Int) - 0 := by omega
  have hsl := pySlice_length_le st (200 - (ext.length : Int) - 0) hn
  rw [String.length_append]
  omega

/-- C10 (amended): every generated filename is non-empty and ends in the
extension chosen from the URL path (the path suffix when non-empty and at
most 5 characters, `.mp3` otherwise); the 200-character cap holds whenever
the numeric leader together with the separator and extension fits within 200
characters (always true for realistic sequence numbers, but violable by an
enormous one); and a title whose sanitization comes out empty gets the title
part `untitled`. -/
theorem generate_filename_bounds (ep : Ep) (url : String) (t : String) :
    1 ≤ (generate_filename ep url).length ∧
    (∃ s, generate_filename ep url = s ++ extUsedFor url) ∧
    ((match namePrefixChoice ep with
      | some p => (toString p).length + 1
      | none => 0) + (extUsedFor url).length ≤ 200 →
      (generate_filename ep url).length ≤ 200) ∧
    (sanitize_core t = [] → sanitize_filename t = "untitled") := by
  have hext := extUsedFor_pos url
  have hdash : ("-" : String).length = 1 := rfl
  have hmain : (∃ s, generate_filename ep url = s ++ extUsedFor url) ∧
      ((match namePrefixChoice ep with
        | some p => (toString p).length + 1
        | none => 0) + (extUsedFor url).length ≤ 200 →
        (generate_filename ep url).length ≤ 200) := by
    rw [generate_filename_eq]
    rcases hpfx : namePrefixChoice ep with _ | p <;> dsimp only
    · by_cases h200 : 200 < (sanitize_filename (ep.title.getD "Untitled Episode") ++
          extUsedFor url).length
      · rw [if_pos h200]
        refine ⟨⟨_, rfl⟩, ?_⟩
        intro hfit
        exact truncated_len_le_nopre _ _ (by omega)
      · rw [if_neg h200]
        exact ⟨⟨_, rfl⟩, fun _ => le_of_not_lt h200⟩
    · by_cases h200 : 200 < (toString p ++ "-" ++
          sanitize_filename (ep.title.getD "Untitled Episode") ++ extUsedFor url).length
      · rw [if_pos h200]
        refine ⟨⟨_, rfl⟩, ?_⟩
        intro hfit
        exact truncated_len_le _ _ _ hfit
      · rw [if_neg h200]
        exact ⟨⟨_, rfl⟩, fun _ => le_of_not_lt h200⟩
  refine ⟨?_, hmain.1, hmain.2, ?_⟩
  · obtain ⟨s, hs⟩ := hmain.1
    rw [hs, String.length_append]
    omega
  · intro h
    simp [sanitize_filename, h]

/-- Closed instance of `generate_filename_bounds` with both hypotheses
satisfied: leader 7 with extension `.mp3` fits easily, and the title `".."`
sanitizes to the empty string. -/
theorem generate_filename_bounds_witness :
    ((match namePrefixChoice epColon with
      | some p => (toString p).length + 1
      | none => 0) + (extUsedFor "https://example.com/audio/ep").length ≤ 200) ∧
    sanitize_core ".." = [] ∧
    (1 ≤ (generate_filename epColon "https://example.com/audio/ep").length ∧
    (∃ s, generate_filename epColon "https://example.com/audio/ep" =
      s ++ extUsedFor "https://example.com/audio/ep") ∧
    ((match namePrefixChoice epColon with
      | some p => (toString p).length + 1
      | none => 0) + (extUsedFor "https://example.com/audio/ep").length ≤ 200 →
      (generate_filename epColon "https://example.com/audio/ep").length ≤ 200) ∧
    (sanitize_core ".." = [] → sanitize_filename ".." = "untitled")) :=
  ⟨by decide, by decide, generate_filename_bounds epColon "https://example.com/audio/ep" ".."⟩

/-! ### C5: candidate selection keeps exactly the valid entries -/

theorem filterMap_pairs_of_all (parse : String → Option Nat) :
    ∀ (S : List Ep), (∀ e ∈ S, (parsedOf parse e.published).isSome = true) →
      S.filterMap (fun ep =>
        match parsedOf parse ep.published with
        | some d => some (d, ep)
        | none => none) =
      S.map (fun ep => ((parsedOf parse ep.published).getD 0, ep)) := by
  intro S
  induction S with
  | nil => intro _; rfl
  | cons e es ih =>
    intro hS
    have he := hS e (List.mem_cons_self e es)
    cases hp : parsedOf parse e.published with
    | none =>
      rw [hp] at he
      simp at he
    | some d =>
      simp only [List.filterMap_cons, List.map_cons, hp]
      rw [ih (fun x hx => hS x (List.mem_cons_of_mem e hx))]
      simp

theorem downloaderGetLatest_of_short_input (parse : String → Option Nat) (S : List Ep)
    (hlen : S.length ≤ 5)
    (hmem : ∀ e ∈ S, (parsedOf parse e.published).isSome = true) :
    List.Perm (downloaderGetLatest parse S) S ∧
    List.Pairwise
      (fun a b => (parsedOf parse b.published).getD 0 ≤ (parsedOf parse a.published).getD 0)
      (downloaderGetLatest parse S) := by
  have htot : ∀ a b : Nat × Ep,
      (decide (a.1 ≤ b.1)) = true ∨ (decide (b.1 ≤ a.1)) = true := by
    intro a b
    rcases Nat.le_total a.1 b.1 with h | h
    · exact Or.inl (by simpa using h)
    · exact Or.inr (by simpa using h)
  have htrans : ∀ a b c : Nat × Ep, (decide (a.1 ≤ b.1)) = true →
      (decide (b.1 ≤ c.1)) = true → (decide (a.1 ≤ c.1)) = true := by
    intro a b c hab hbc
    simp only [decide_eq_true_eq] at hab hbc ⊢
    omega
  have hD : downloaderGetLatest parse S =
      (sortDescBy (fun a b => decide (a.1 ≤ b.1))
        (S.map (fun ep => ((parsedOf parse ep.published).getD 0, ep)))).map Prod.snd := by
    simp only [downloaderGetLatest]
    rw [filterMap_pairs_of_all parse S hmem]
    rw [List.take_of_length_le]
    rw [(sortDescBy_perm _ _).length_eq, List.length_map]
    exact hlen
  have hinv : ∀ pr ∈ sortDescBy (fun a b => decide (a.1 ≤ b.1))
      (S.map (fun ep => ((parsedOf parse ep.published).getD 0, ep))),
      pr.1 = (parsedOf parse pr.2.published).getD 0 := by
    intro pr hpr
    have hpr2 : pr ∈ S.map (fun ep => ((parsedOf parse ep.published).getD 0, ep)) :=
      (sortDescBy_perm _ _).mem_iff.mp hpr
    obtain ⟨ep, _, rfl⟩ := List.mem_map.mp hpr2
    rfl
  constructor
  · rw [hD]
    have h1 : List.Perm
        ((sortDescBy (fun a b => decide (a.1 ≤ b.1))
          (S.map (fun ep => ((parsedOf parse ep.published).getD 0, ep)))).map Prod.snd)
        ((S.map (fun ep => ((parsedOf parse ep.published).getD 0, ep))).map Prod.snd) :=
      (sortDescBy_perm _ _).map _
    have h2 : (S.map (fun ep => ((parsedOf parse ep.published).getD 0, ep))).map Prod.snd =
        S := by
      rw [List.map_map]
      rw [show (Prod.snd ∘ fun ep : Ep => ((parsedOf parse ep.published).getD 0, ep)) = id
        from rfl]
      exact List.map_id S
    rw [h2] at h1
    exact h1
  · rw [hD]
    have hsorted := sortDescBy_pairwise (fun a b : Nat × Ep => decide (a.1 ≤ b.1))
      htot htrans (S.map (fun ep => ((parsedOf parse ep.published).getD 0, ep)))
    refine List.pairwise_map.mpr ?_
    refine List.Pairwise.imp_of_mem ?_ hsorted
    intro a b ha hb hab
    have h1 := hinv a ha
    have h2 := hinv b hb
    simp only [decide_eq_true_eq] at hab
    rw [h1, h2] at hab
    exact hab

/-- C5: for a 12-entry feed of which exactly 4 entries have both a parseable
publish date and an audio enclosure, and the per-check cap of 5, the selected
candidate list consists of exactly those 4 entries' episode records (never
more, never padded): before the final reversal it is a permutation of them
sorted by parsed publish date descending, so the emitted list is in
oldest-first upload order. -/
theorem selectCandidates_four (parse : String → Option Nat) (entries : List RawEntry)
    (h12 : entries.length = 12)
    (h4 : entries.countP
      (fun r => (parsedOf parse r.pubdate).isSome && strTruthy (audioOf r)) = 4) :
    (selectCandidates parse entries).length = 4 ∧
    List.Perm (selectCandidates parse entries).reverse
      ((entries.filter
        (fun r => (parsedOf parse r.pubdate).isSome && strTruthy (audioOf r))).map
        (entryToEp parse)) ∧
    List.Pairwise
      (fun a b => (parsedOf parse b.published).getD 0 ≤ (parsedOf parse a.published).getD 0)
      (selectCandidates parse entries).reverse := by
  -- the valid episode records
  have hF : (entries.map (entryToEp parse)).filter
      (fun e => e.parsed.isSome && strTruthy e.audio_url) =
      (entries.filter
        (fun r => (parsedOf parse r.pubdate).isSome && strTruthy (audioOf r))).map
        (entryToEp parse) := by
    rw [List.filter_map]
    rfl
  have hFlen : ((entries.filter
      (fun r => (parsedOf parse r.pubdate).isSome && strTruthy (audioOf r))).map
      (entryToEp parse)).length = 4 := by
    rw [List.length_map, ← List.countP_eq_length_filter]
    exact h4
  -- stage 1: the feed-side selection returns all 4, sorted
  have hsortlen : (sortDescBy (fun a b => decide (a.parsed.getD 0 ≤ b.parsed.getD 0))
      ((entries.filter
        (fun r => (parsedOf parse r.pubdate).isSome && strTruthy (audioOf r))).map
        (entryToEp parse))).length = 4 := by
    rw [(sortDescBy_perm _ _).length_eq, hFlen]
  have hS1 : feedGetLatestEpisodes parse entries 50 =
      sortDescBy (fun a b => decide (a.parsed.getD 0 ≤ b.parsed.getD 0))
        ((entries.filter
          (fun r => (parsedOf parse r.pubdate).isSome && strTruthy (audioOf r))).map
          (entryToEp parse)) := by
    simp only [feedGetLatestEpisodes]
    rw [hF]
    exact List.take_of_length_le (by rw [hsortlen]; norm_num)
  -- every valid episode record re-parses successfully in the downloader
  have hmemF : ∀ e ∈ (entries.filter
      (fun r => (parsedOf parse r.pubdate).isSome && strTruthy (audioOf r))).map
      (entryToEp parse), (parsedOf parse e.published).isSome = true := by
    intro e he
    obtain ⟨r, hr, rfl⟩ := List.mem_map.mp he
    have hQ := (List.mem_filter.mp hr).2
    rw [Bool.and_eq_true] at hQ
    exact hQ.1
  have hS1mem : ∀ e ∈ sortDescBy (fun a b => decide (a.parsed.getD 0 ≤ b.parsed.getD 0))
      ((entries.filter
        (fun r => (parsedOf parse r.pubdate).isSome && strTruthy (audioOf r))).map
        (entryToEp parse)), (parsedOf parse e.published).isSome = true :=
    fun e he => hmemF e ((sortDescBy_perm _ _).mem_iff.mp he)
  have hstage2 := downloaderGetLatest_of_short_input parse
    (sortDescBy (fun a b => decide (a.parsed.getD 0 ≤ b.parsed.getD 0))
      ((entries.filter
        (fun r => (parsedOf parse r.pubdate).isSome && strTruthy (audioOf r))).map
        (entryToEp parse)))
    (by rw [hsortlen]; norm_num) hS1mem
  -- the orchestration keeps the downloader result, reversed
  have hnonempty : (feedGetLatestEpisodes parse entries 50).isEmpty = false := by
    rw [hS1]
    cases hl : sortDescBy (fun a b => decide (a.parsed.getD 0 ≤ b.parsed.getD 0))
        ((entries.filter
          (fun r => (parsedOf parse r.pubdate).isSome && strTruthy (audioOf r))).map
          (entryToEp parse)) with
    | nil => rw [hl] at hsortlen; simp at hsortlen
    | cons x xs => rfl
  have hsel : selectCandidates parse entries =
      (downloaderGetLatest parse (feedGetLatestEpisodes parse entries 50)).reverse := by
    simp [selectCandidates, hnonempty]
  rw [hsel, hS1]
  refine ⟨?_, ?_, ?_⟩
  · rw [List.length_reverse, hstage2.1.length_eq, hsortlen]
  · rw [List.reverse_reverse]
    exact hstage2.1.trans (sortDescBy_perm _ _)
  · rw [List.reverse_reverse]
    exact hstage2.2

/-- Closed instance of `selectCandidates_four` on the concrete 12-entry feed
`entries12` with parse function `parse12`: exactly the 4 valid entries come
out, oldest first. -/
theorem selectCandidates_four_witness :
    entries12.length = 12 ∧
    entries12.countP
      (fun r => (parsedOf parse12 r.pubdate).isSome && strTruthy (audioOf r)) = 4 ∧
    ((selectCandidates parse12 entries12).length = 4 ∧
    List.Perm (selectCandidates parse12 entries12).reverse
      ((entries12.filter
        (fun r => (parsedOf parse12 r.pubdate).isSome && strTruthy (audioOf r))).map
        (entryToEp parse12)) ∧
    List.Pairwise
      (fun a b =>
        (parsedOf parse12 b.published).getD 0 ≤ (parsedOf parse12 a.published).getD 0)
      (selectCandidates parse12 entries12).reverse) :=
  ⟨by decide, by decide, selectCandidates_four parse12 entries12 (by decide) (by decide)⟩

end Podcast

